import Mathlib

/-!
Page bundle `tutorials/geodesic_paths.md`.

A shallow embedding of the generated page module
`previews/PR288/assets/tutorials_geodesic_paths.md.DhhfbAWB.js`:
the page-data constant `h`, the component definition `t`, the render
function `i` and the two exports.
-/

namespace GeodesicPaths

/-! ## JavaScript values -/

/-- JavaScript values as far as the module handles them: the primitive values,
arrays, plain objects (fields in insertion order) and the two kinds of virtual
node the render function asks the framework for.  A finite number is the exact
rational value of its double; the sign of zero is not kept. -/
inductive Val where
  | undefined : Val
  | null : Val
  | bool (b : Bool) : Val
  | num (q : Rat) : Val
  | infinity (negative : Bool) : Val
  | nan : Val
  | str (s : String) : Val
  | arr (items : List Val) : Val
  | obj (fields : List (String × Val)) : Val
  | staticVNode (content : String) (numberOfNodes : Nat) : Val
  | elementBlock (tag : String) (props : Val) (children : Val) : Val

namespace Val

/-- The `ToBoolean` conversion behind `||`: `undefined`, `null`, `false`,
zero, `NaN` and the empty string are falsy, every other value is truthy. -/
def truthy : Val → Bool
  | undefined => false
  | null => false
  | bool b => b
  | num q => !(q.num == 0)
  | nan => false
  | str s => !(s.data.isEmpty)
  | _ => true

/-- The value of the first field under `key`; `undefined` when there is none. -/
def getField : List (String × Val) → String → Val
  | [], _ => undefined
  | (k, v) :: rest, key => if k = key then v else getField rest key

/-- The own property `key` of a value, as a reader of the page data finds it:
the property's value on an object that has it, `undefined` otherwise. -/
def get : Val → String → Val
  | obj fields, key => getField fields key
  | _, _ => undefined

end Val

/-! ## The framework imports

`import{_ as a,c as e,o as n,az as p}from"./chunks/framework.uBVz5atw.js"`.
The chunk is not part of the page module; its four functions are modelled
as far as the page module observes them. -/

/-- One call into the framework chunk, as seen by a call probe. -/
inductive Call where
  | openBlock : Call
  | createStaticVNode (content : String) (numberOfNodes : Nat) : Call
  | createElementBlock (tag : String) (props children : Val) : Call

/-- The probe's log, oldest call first. -/
abbrev Trace := List Call

/-- Tells whether a logged call is a call of the static-markup materializer. -/
def Call.isStatic : Call → Bool
  | Call.createStaticVNode _ _ => true
  | _ => false

/-- Number of calls of the static-markup materializer `p` in a log. -/
def staticCalls (tr : Trace) : Nat :=
  (tr.filter Call.isStatic).length

/-- Modelled from the spec: `n` (`openBlock`) of the framework chunk, which is
not under the page module.  It returns nothing the page module uses; the call
is logged. -/
def n (tr : Trace) : Trace :=
  tr ++ [Call.openBlock]

/-- Modelled from the spec: `p` (`createStaticVNode`) of the framework chunk,
the materializer turning the opaque markup payload into a framework node.  The
node records the payload and the declared number of top-level nodes. -/
def p (content : String) (numberOfNodes : Nat) (tr : Trace) : Val × Trace :=
  (Val.staticVNode content numberOfNodes,
    tr ++ [Call.createStaticVNode content numberOfNodes])

/-- Modelled from the spec: `e` (`createElementBlock`) of the framework chunk,
returning the element node for a tag, its props and its children. -/
def e (tag : String) (props children : Val) (tr : Trace) : Val × Trace :=
  (Val.elementBlock tag props children,
    tr ++ [Call.createElementBlock tag props children])

/-! ## The render cache -/

/-- The render cache `s`: a sparse mapping from slot index to value; reading an
index that was never written gives `undefined`. -/
abbrev Cache := Nat → Val

/-- The cache no render has written to. -/
def Cache.empty : Cache := fun _ => Val.undefined

/-- The assignment `s[k] = v`. -/
def Cache.set (s : Cache) (k : Nat) (v : Val) : Cache :=
  fun j => if j = k then v else s j

/-- Outcome of one render call: the returned node tree, the cache and the
probe log as the call leaves them. -/
structure Rendered where
  tree : Val
  cache : Cache
  trace : Trace

/-- The render function with the markup literal taken as a parameter:
`n(), e("div", null, s[0] || (s[0] = [p(markup, 3)]))`.  The parameters
`o`, `l`, `c`, `d`, `r` are received and never used. -/
def renderWith (markup : String) (_o : Val) (s : Cache) (_l _c _d _r : Val)
    (tr : Trace) : Rendered :=
  let tr1 := n tr
  if (s 0).truthy then
    let out := e "div" Val.null (s 0) tr1
    Rendered.mk out.1 s out.2
  else
    let node := p markup 3 tr1
    let children := Val.arr [node.1]
    let s1 := s.set 0 children
    let out := e "div" Val.null children node.2
    Rendered.mk out.1 s1 out.2

/-! ## `JSON.parse`

The built-in the module calls on its page-data literal, as a recursive-descent
reader of the JSON grammar over the characters of the text.  `none` stands for
the `SyntaxError` the built-in throws. -/

namespace JSON

/-- JSON whitespace: space, tab, line feed, carriage return. -/
def isWs (c : Char) : Bool :=
  c = ' ' || c = '\t' || c = '\n' || c = '\r'

/-- Drops leading whitespace. -/
def skipWs : List Char → List Char
  | [] => []
  | c :: cs => if isWs c then skipWs cs else c :: cs

/-- Consumes the literal `lit` at the head of the input, if it is there. -/
def expect : List Char → List Char → Option (List Char)
  | [], cs => some cs
  | _ :: _, [] => none
  | x :: xs, c :: cs => if x = c then expect xs cs else none

/-- Value of a hexadecimal digit. -/
def hexVal (c : Char) : Option Nat :=
  if '0' ≤ c ∧ c ≤ '9' then some (c.toNat - 48)
  else if 'a' ≤ c ∧ c ≤ 'f' then some (c.toNat - 87)
  else if 'A' ≤ c ∧ c ≤ 'F' then some (c.toNat - 55)
  else none

/-- Tells whether a code unit is a high (leading) surrogate. -/
def isHighSurrogate (u : Nat) : Bool :=
  0xD800 ≤ u && u ≤ 0xDBFF

/-- Tells whether a code unit is a low (trailing) surrogate. -/
def isLowSurrogate (u : Nat) : Bool :=
  0xDC00 ≤ u && u ≤ 0xDFFF

/-- The character for a code unit that is not part of a surrogate pair.  A
string of the model is a sequence of Unicode characters and cannot hold a lone
surrogate; U+FFFD stands in for it. -/
def unitChar (u : Nat) : Char :=
  if isHighSurrogate u || isLowSurrogate u then Char.ofNat 0xFFFD else Char.ofNat u

/-- The character a surrogate pair encodes. -/
def pairChar (hi lo : Nat) : Char :=
  Char.ofNat (0x10000 + (hi - 0xD800) * 0x400 + (lo - 0xDC00))

/-- The character a one-letter escape denotes. -/
def simpleEscape (c : Char) : Option Char :=
  if c = '"' then some '"'
  else if c = '\\' then some '\\'
  else if c = '/' then some '/'
  else if c = 'b' then some (Char.ofNat 8)
  else if c = 'f' then some (Char.ofNat 12)
  else if c = 'n' then some '\n'
  else if c = 'r' then some '\r'
  else if c = 't' then some '\t'
  else none

/-- The accumulator after a pending high surrogate turned out to be alone. -/
def flushPending : Option Nat → List Char → List Char
  | none, acc => acc
  | some _, acc => Char.ofNat 0xFFFD :: acc

/-- Where the string reader stands: between characters, right after a
backslash, or inside a `\\uXXXX` escape with `count` hexadecimal digits read and
`value` their value so far. -/
inductive StrMode where
  | normal : StrMode
  | escape : StrMode
  | hex (count : Nat) (value : Nat) : StrMode

/-- Reads a string body up to its closing quote; `acc` holds the characters
read so far, newest first, and `pending` an escaped high surrogate that still
waits for its low surrogate. -/
def parseChars : List Char → StrMode → Option Nat → List Char → Option (String × List Char)
  | [], _, _, _ => none
  | c :: cs, StrMode.normal, pending, acc =>
    if c = '"' then some (String.mk (flushPending pending acc).reverse, cs)
    else if c = '\\' then parseChars cs StrMode.escape pending acc
    else if c.toNat < 32 then none
    else parseChars cs StrMode.normal none (c :: flushPending pending acc)
  | c :: cs, StrMode.escape, pending, acc =>
    if c = 'u' then parseChars cs (StrMode.hex 0 0) pending acc
    else
      match simpleEscape c with
      | some ch => parseChars cs StrMode.normal none (ch :: flushPending pending acc)
      | none => none
  | c :: cs, StrMode.hex count value, pending, acc =>
    match hexVal c with
    | none => none
    | some digit =>
      if count < 3 then parseChars cs (StrMode.hex (count + 1) (value * 16 + digit)) pending acc
      else
        match pending with
        | some hi =>
          if isLowSurrogate (value * 16 + digit) then
            parseChars cs StrMode.normal none (pairChar hi (value * 16 + digit) :: acc)
          else if isHighSurrogate (value * 16 + digit) then
            parseChars cs StrMode.normal (some (value * 16 + digit)) (Char.ofNat 0xFFFD :: acc)
          else
            parseChars cs StrMode.normal none
              (Char.ofNat (value * 16 + digit) :: Char.ofNat 0xFFFD :: acc)
        | none =>
          if isHighSurrogate (value * 16 + digit) then
            parseChars cs StrMode.normal (some (value * 16 + digit)) acc
          else parseChars cs StrMode.normal none (unitChar (value * 16 + digit) :: acc)

/-- Reads a string body up to its closing quote, after the characters `acc`. -/
def parseString (cs : List Char) (acc : List Char) : Option (String × List Char) :=
  parseChars cs StrMode.normal none acc

/-- Splits off the leading run of decimal digits. -/
def takeDigits : List Char → List Char × List Char
  | [] => ([], [])
  | c :: cs =>
    if c.isDigit then ((takeDigits cs).1.cons c, (takeDigits cs).2) else ([], c :: cs)

/-- Value of a run of decimal digits. -/
def digitsVal (ds : List Char) : Nat :=
  ds.foldl (fun acc c => 10 * acc + (c.toNat - 48)) 0

/-- The integer part of a number: a lone `0`, or a run of digits that does not
start with `0`. -/
def takeInt : List Char → Option (List Char × List Char)
  | [] => none
  | c :: cs =>
    if c = '0' then some ([c], cs)
    else if c.isDigit then some ((takeDigits (c :: cs)).1, (takeDigits (c :: cs)).2)
    else none

/-- The optional fraction of a number. -/
def takeFrac : List Char → Option (List Char × List Char)
  | [] => some ([], [])
  | c :: cs =>
    if c = '.' then
      (if (takeDigits cs).1.isEmpty then none else some (takeDigits cs))
    else some ([], c :: cs)

/-- The optional exponent of a number. -/
def takeExp : List Char → Option (Int × List Char)
  | [] => some (0, [])
  | c :: cs =>
    if c = 'e' || c = 'E' then
      match cs with
      | [] => none
      | sgn :: rest =>
        if sgn = '-' then
          (if (takeDigits rest).1.isEmpty then none
           else some (-(digitsVal (takeDigits rest).1 : Int), (takeDigits rest).2))
        else if sgn = '+' then
          (if (takeDigits rest).1.isEmpty then none
           else some ((digitsVal (takeDigits rest).1 : Int), (takeDigits rest).2))
        else
          (if (takeDigits cs).1.isEmpty then none
           else some ((digitsVal (takeDigits cs).1 : Int), (takeDigits cs).2))
    else some (0, c :: cs)

/-- The exact value `m * 10 ^ k`, the mathematical value of a literal. -/
def scale10 (m : Int) (k : Int) : Rat :=
  if 0 ≤ k then ((m * 10 ^ k.toNat : Int) : Rat) else mkRat m (10 ^ (-k).toNat)

/-- The power `2 ^ k` for an integer `k`. -/
def pow2 (k : Int) : Rat :=
  if 0 ≤ k then ((2 ^ k.toNat : Nat) : Rat) else mkRat 1 (2 ^ (-k).toNat)

/-- The integer `E` with `2 ^ E ≤ q < 2 ^ (E + 1)`, for positive `q`. -/
def floorLog2 (q : Rat) : Int :=
  if pow2 ((Nat.log2 q.num.toNat : Int) - (Nat.log2 q.den : Int)) ≤ q then
    (Nat.log2 q.num.toNat : Int) - (Nat.log2 q.den : Int)
  else (Nat.log2 q.num.toNat : Int) - (Nat.log2 q.den : Int) - 1

/-- The integer nearest to a non-negative rational, ties to the even one. -/
def roundHalfEven (x : Rat) : Nat :=
  if 2 * (x.num.toNat % x.den) < x.den then x.num.toNat / x.den
  else if x.den < 2 * (x.num.toNat % x.den) then x.num.toNat / x.den + 1
  else if (x.num.toNat / x.den) % 2 = 0 then x.num.toNat / x.den
  else x.num.toNat / x.den + 1

/-- The spacing of the doubles around a positive rational: 53 significant bits,
least exponent -1074. -/
def ulp (q : Rat) : Rat :=
  pow2 (max (floorLog2 q) (-1022) - 52)

/-- The Number value of a non-negative mathematical value: the nearest double,
ties to even, and infinity from `2 ^ 1024` on. -/
def toDouble (q : Rat) : Option Rat :=
  if q = 0 then some 0
  else if pow2 1024 ≤ (roundHalfEven (q / ulp q) : Rat) * ulp q then none
  else some ((roundHalfEven (q / ulp q) : Rat) * ulp q)

/-- The Number value of a signed mathematical value. -/
def toNumber (negative : Bool) (q : Rat) : Val :=
  match toDouble q with
  | none => Val.infinity negative
  | some x => Val.num (if negative then -x else x)

/-- Reads a number after its optional minus sign. -/
def parseUnsigned (cs : List Char) : Option (Rat × List Char) :=
  match takeInt cs with
  | none => none
  | some (ip, r1) =>
    match takeFrac r1 with
    | none => none
    | some (fp, r2) =>
      match takeExp r2 with
      | none => none
      | some (ex, r3) =>
        some (scale10 (digitsVal (ip ++ fp) : Int) (ex - (fp.length : Int)), r3)

/-- Reads a number. -/
def parseNumber : List Char → Option (Val × List Char)
  | [] => none
  | c :: cs =>
    if c = '-' then
      match parseUnsigned cs with
      | some (q, r) => some (toNumber true q, r)
      | none => none
    else
      match parseUnsigned (c :: cs) with
      | some (q, r) => some (toNumber false q, r)
      | none => none

/-- The array index a property key spells, if any: the decimal numeral, without
leading zeros, of a number up to `2 ^ 32 - 2`. -/
def indexKey (k : String) : Option Nat :=
  match k.data with
  | [] => none
  | c :: cs =>
    if (c :: cs).all Char.isDigit && (!(c = '0') || cs.isEmpty)
        && digitsVal (c :: cs) ≤ 4294967294 then
      some (digitsVal (c :: cs))
    else none

/-- Tells whether an object under construction has property `k`. -/
def hasField : List (String × Val) → String → Bool
  | [], _ => false
  | (k0, _) :: rest, k => k0 = k || hasField rest k

/-- Gives the existing property `k` a new value, in place. -/
def replaceField : List (String × Val) → String → Val → List (String × Val)
  | [], _, _ => []
  | (k0, v0) :: rest, k, v =>
    if k0 = k then (k0, v) :: rest else (k0, v0) :: replaceField rest k v

/-- Adds the new property `k` at its place in the key order of an object: array
indices first, in ascending order, then the other keys in the order they were
added. -/
def insertField : List (String × Val) → String → Val → List (String × Val)
  | [], k, v => [(k, v)]
  | (k0, v0) :: rest, k, v =>
    match indexKey k, indexKey k0 with
    | none, _ => (k0, v0) :: insertField rest k v
    | some _, none => (k, v) :: (k0, v0) :: rest
    | some j, some j0 =>
      if j0 < j then (k0, v0) :: insertField rest k v else (k, v) :: (k0, v0) :: rest

/-- Defines property `k` of an object under construction: a repeated key keeps
its place and takes the later value, a new key goes to its place in the key
order. -/
def setField (fields : List (String × Val)) (k : String) (v : Val) : List (String × Val) :=
  if hasField fields k then replaceField fields k v else insertField fields k v

mutual

/-- Reads one JSON value. -/
def parseValue : Nat → List Char → Option (Val × List Char)
  | 0, _ => none
  | fuel + 1, cs =>
    match skipWs cs with
    | [] => none
    | c :: r =>
      if c = 'n' then (expect "ull".data r).map (fun r1 => (Val.null, r1))
      else if c = 't' then (expect "rue".data r).map (fun r1 => (Val.bool true, r1))
      else if c = 'f' then (expect "alse".data r).map (fun r1 => (Val.bool false, r1))
      else if c = '"' then (parseString r []).map (fun sr => (Val.str sr.1, sr.2))
      else if c = '[' then
        match skipWs r with
        | [] => none
        | c1 :: r1 =>
          if c1 = ']' then some (Val.arr [], r1) else parseElements fuel (c1 :: r1) []
      else if c = '{' then
        match skipWs r with
        | [] => none
        | c1 :: r1 =>
          if c1 = '}' then some (Val.obj [], r1) else parseMembers fuel (c1 :: r1) []
      else parseNumber (c :: r)

/-- Reads the elements of a non-empty array up to its closing bracket; `acc`
holds the elements read so far, newest first. -/
def parseElements : Nat → List Char → List Val → Option (Val × List Char)
  | 0, _, _ => none
  | fuel + 1, cs, acc =>
    match parseValue fuel cs with
    | none => none
    | some (v, r) =>
      match skipWs r with
      | [] => none
      | c :: r1 =>
        if c = ',' then parseElements fuel r1 (v :: acc)
        else if c = ']' then some (Val.arr (v :: acc).reverse, r1)
        else none

/-- Reads the members of a non-empty object up to its closing brace; `acc`
holds the members read so far, in key order. -/
def parseMembers : Nat → List Char → List (String × Val) → Option (Val × List Char)
  | 0, _, _ => none
  | fuel + 1, cs, acc =>
    match skipWs cs with
    | [] => none
    | q :: r =>
      if q = '"' then
        match parseString r [] with
        | none => none
        | some (k, r1) =>
          match skipWs r1 with
          | [] => none
          | colon :: r2 =>
            if colon = ':' then
              match parseValue fuel r2 with
              | none => none
              | some (v, r3) =>
                match skipWs r3 with
                | [] => none
                | c :: r4 =>
                  if c = ',' then parseMembers fuel r4 (setField acc k v)
                  else if c = '}' then some (Val.obj (setField acc k v), r4)
                  else none
            else none
      else none

end

/-- The built-in `JSON.parse(text)`: one value, then nothing but whitespace.
The fuel bounds the nesting depth plus the number of members read; every level
and every member takes at least one character of the text, so the length of the
text is fuel enough. -/
def parse (text : String) : Option Val :=
  match parseValue (text.length + 1) text.data with
  | none => none
  | some (v, rest) => if (skipWs rest).isEmpty then some v else none

/-! ### Writing flat objects

The texts a build step writes for an object of string-valued members, used to
state what initialization does with such a payload. -/

/-- Tells whether a character stands for itself inside a JSON string. -/
def plainChar (c : Char) : Bool :=
  !(c = '"') && !(c = '\\') && !(c.toNat < 32)

/-- Tells whether a string can be written between quotes without escapes. -/
def plain (s : String) : Bool :=
  s.data.all plainChar

/-- The characters of a string between quotes. -/
def quote (s : String) : List Char :=
  '"' :: (s.data ++ ['"'])

/-- One member `"key":"value"`. -/
def writeMember (kv : String × String) : List Char :=
  quote kv.1 ++ ':' :: quote kv.2

/-- The members of an object, separated by commas, then the closing brace. -/
def writeMembers : List (String × String) → List Char
  | [] => ['\x7d']
  | kv :: rest =>
    match rest with
    | [] => writeMember kv ++ ['\x7d']
    | _ :: _ => writeMember kv ++ ',' :: writeMembers rest

/-- The JSON text of an object of string-valued members. -/
def writeObject (fields : List (String × String)) : String :=
  String.mk ('\x7b' :: writeMembers fields)

/-- The JSON text of a string. -/
def writeString (s : String) : String :=
  String.mk (quote s)

end JSON

/-! ## The module's constants -/

/-- The text handed to `JSON.parse` at module initialization. -/
def payload : String :=
  "\x7b\"title\":\"Geodesic paths\",\"description\":\"\",\"frontmatter\":\x7b\x7d,\"headers\":[],"
  ++ "\"relativePath\":\"tutorials/geodesic_paths.md\",\"filePath\":\"tutorials/geodesic_paths.md\","
  ++ "\"lastUpdated\":null\x7d"

/-- The pre-rendered markup, the template literal handed to `p`. -/
def markup : String :=
  "<h1 id=\"Geodesic-paths\" tabindex=\"-1\">Geodesic paths <a class=\"header-anchor\" "
  ++ "href=\"#Geodesic-paths\" aria-label=\"Permalink to &quot;Geodesic paths "
  ++ "\x7b#Geodesic-paths\x7d&quot;\">\u200b</a></h1><p>Geodesic paths are paths computed "
  ++ "on an ellipsoid, as opposed to a plane.</p><div class=\"language-@example "
  ++ "vp-adaptive-theme\"><button title=\"Copy Code\" class=\"copy\"></button>"
  ++ "<span class=\"lang\">@example</span><pre class=\"shiki shiki-themes "
  ++ "github-light github-dark vp-code\" tabindex=\"0\"><code><span class=\"line\">"
  ++ "<span>import GeometryOps as GO, GeoInterface as GI</span></span>"
  ++ "\n"
  ++ "<span class=\"line\"><span>using CairoMakie, GeoMakie</span></span>"
  ++ "\n"
  ++ "<span class=\"line\"><span></span></span>\n"
  ++ "<span class=\"line\"><span></span></span>\n"
  ++ "<span class=\"line\"><span>IAH = (-95.358421, 29.749907)</span></span>"
  ++ "\n"
  ++ "<span class=\"line\"><span>AMS = (4.897070, 52.377956)</span></span>"
  ++ "\n"
  ++ "<span class=\"line\"><span></span></span>\n"
  ++ "<span class=\"line\"><span></span></span>\n"
  ++ "<span class=\"line\"><span>fig, ga, _cp = lines(GeoMakie.coastlines(); "
  ++ "axis = (; type = GeoAxis))</span></span>\n"
  ++ "<span class=\"line\"><span>lines!(ga, GO.segmentize(GO.GeodesicSegments(; "
  ++ "max_distance = 100_000), GI.LineString([IAH, AMS])); color = Makie.wong_colors()[2])</span>"
  ++ "</span>\n"
  ++ "<span class=\"line\"><span>fig</span></span></code></pre></div>"

/-- Signature of a render function: `(o, s, l, c, d, r)` and the probe log. -/
abbrev RenderFn := Val → Cache → Val → Val → Val → Val → Trace → Rendered

/-- A component definition: the `name` of the object literal and the entries
attached to it afterwards. -/
structure Component where
  name : String
  entries : List (String × RenderFn)

/-- The constant `t = {name:"tutorials/geodesic_paths.md"}`. -/
def t : Component :=
  Component.mk "tutorials/geodesic_paths.md" []

/-- The render function `i(o,s,l,c,d,r)` of the module. -/
def i : RenderFn :=
  renderWith markup

/-- Modelled from the spec: `a` (`_export_sfc`) of the framework chunk, which
attaches each listed entry to the component definition and returns it. -/
def a (sfc : Component) (props : List (String × RenderFn)) : Component :=
  Component.mk sfc.name (sfc.entries ++ props)

/-- The constant `g = a(t,[["render",i]])`, the component the module exports. -/
def g : Component :=
  a t [("render", i)]

/-- The entry a component definition holds under a key; of two entries under
one key the later assignment counts. -/
def Component.entry (comp : Component) (key : String) : Option RenderFn :=
  (comp.entries.reverse.find? (fun kv => kv.1 = key)).map Prod.snd

/-- Modelled from the spec: the framework's mount step, which is not under the
page module: the runtime invokes the render entry point of the component with
the instance's render cache.  A component without a render entry yields no
tree. -/
def mount (comp : Component) (o : Val) (s : Cache) (l c d r : Val) (tr : Trace) :
    Option Rendered :=
  match comp.entry "render" with
  | some render => some (render o s l c d r tr)
  | none => none

/-- The exports of the module: `export{h as __pageData,g as default}`. -/
structure Module where
  __pageData : Val
  default : Component

/-- Module initialization with the page-data text taken as a parameter:
`h = JSON.parse(text)`, `t`, `g = a(t,[["render",i]])`, then the exports.
A throwing `JSON.parse` aborts it. -/
def initWith (text : String) : Option Module :=
  match JSON.parse text with
  | none => none
  | some h => some (Module.mk h g)

/-- The constant `h = JSON.parse('...')` of the module. -/
def h : Option Val :=
  JSON.parse payload

/-- Initialization of the module as written. -/
def init : Option Module :=
  initWith payload

end GeodesicPaths

/-! ## Reading the markup

What the materialized fragment contains is read off the markup text: a scanner
splits it into tags and text, a stack checks that the tags nest. -/

namespace GeodesicPaths

namespace Markup

/-- One lexical item of a markup fragment. -/
inductive Token where
  | openTag (name : String) (attrs : List (String × String)) : Token
  | closeTag (name : String) : Token
  | text (content : String) : Token
  deriving DecidableEq

/-- Where the scanner stands. -/
inductive Mode where
  | text (acc : List Char) : Mode
  | tagName (closing : Bool) (acc : List Char) : Mode
  | between (name : String) (attrs : List (String × String)) : Mode
  | attrName (name : String) (attrs : List (String × String)) (acc : List Char) : Mode
  | afterEq (name : String) (attrs : List (String × String)) (key : String) : Mode
  | attrValue (name : String) (attrs : List (String × String)) (key : String)
      (acc : List Char) : Mode

/-- The text token for the characters gathered, none for an empty run. -/
def flush (acc : List Char) (out : List Token) : List Token :=
  if acc.isEmpty then out else Token.text (String.mk acc.reverse) :: out

/-- The scanner: `out` holds the tokens found so far, newest first.  Tags carry
double-quoted attribute values; comments, self-closing tags and unquoted values
are refused. -/
def scan : Mode → List Char → List Token → Option (List Token)
  | Mode.text acc, [], out => some (flush acc out).reverse
  | _, [], _ => none
  | Mode.text acc, c :: cs, out =>
    if c = '<' then scan (Mode.tagName false []) cs (flush acc out)
    else scan (Mode.text (c :: acc)) cs out
  | Mode.tagName closing acc, c :: cs, out =>
    if c = '/' then
      (if closing || !acc.isEmpty then none else scan (Mode.tagName true []) cs out)
    else if c = '>' then
      (if acc.isEmpty then none
       else if closing then scan (Mode.text []) cs (Token.closeTag (String.mk acc.reverse) :: out)
       else scan (Mode.text []) cs (Token.openTag (String.mk acc.reverse) [] :: out))
    else if c.isWhitespace then
      (if closing || acc.isEmpty then none
       else scan (Mode.between (String.mk acc.reverse) []) cs out)
    else if c.isAlphanum then scan (Mode.tagName closing (c :: acc)) cs out
    else none
  | Mode.between name attrs, c :: cs, out =>
    if c = '>' then scan (Mode.text []) cs (Token.openTag name attrs.reverse :: out)
    else if c.isWhitespace then scan (Mode.between name attrs) cs out
    else if c = '/' || c = '=' || c = '"' || c = '<' then none
    else scan (Mode.attrName name attrs [c]) cs out
  | Mode.attrName name attrs acc, c :: cs, out =>
    if c = '=' then scan (Mode.afterEq name attrs (String.mk acc.reverse)) cs out
    else if c = '>' then
      scan (Mode.text []) cs
        (Token.openTag name ((String.mk acc.reverse, "") :: attrs).reverse :: out)
    else if c.isWhitespace then
      scan (Mode.between name ((String.mk acc.reverse, "") :: attrs)) cs out
    else if c = '/' || c = '"' || c = '<' then none
    else scan (Mode.attrName name attrs (c :: acc)) cs out
  | Mode.afterEq name attrs key, c :: cs, out =>
    if c = '"' then scan (Mode.attrValue name attrs key []) cs out else none
  | Mode.attrValue name attrs key acc, c :: cs, out =>
    if c = '"' then scan (Mode.between name ((key, String.mk acc.reverse) :: attrs)) cs out
    else scan (Mode.attrValue name attrs key (c :: acc)) cs out

/-- The tokens of a markup fragment. -/
def tokens (content : String) : Option (List Token) :=
  scan (Mode.text []) content.data []

/-- The top-level nodes of a token stream, in order: the tag name for an
element, `#text` for a text node.  `stack` holds the open elements; a stream
whose tags do not nest has no answer. -/
def topLevel : List Token → List String → Option (List String)
  | [], [] => some []
  | [], _ :: _ => none
  | Token.openTag name _ :: ts, stack =>
    if stack.isEmpty then (topLevel ts (name :: stack)).map (fun rest => name :: rest)
    else topLevel ts (name :: stack)
  | Token.closeTag _ :: _, [] => none
  | Token.closeTag name :: ts, top :: stack =>
    if name = top then topLevel ts stack else none
  | Token.text _ :: ts, stack =>
    if stack.isEmpty then (topLevel ts stack).map (fun rest => "#text" :: rest)
    else topLevel ts stack

/-- Value of an attribute, if the tag carries it. -/
def attr : List (String × String) → String → Option String
  | [], _ => none
  | (k, v) :: rest, key => if k = key then some v else attr rest key

/-- Tells whether a tag name is one of `h1` .. `h6`. -/
def isHeading (name : String) : Bool :=
  name = "h1" || name = "h2" || name = "h3" || name = "h4" || name = "h5" || name = "h6"

/-- The heading elements of a token stream, each with its `id`. -/
def headings : List Token → List (String × Option String)
  | [] => []
  | Token.openTag name attrs :: ts =>
    if isHeading name then (name, attr attrs "id") :: headings ts else headings ts
  | _ :: ts => headings ts

/-- The number of elements with the given tag name in a token stream. -/
def countTag (tag : String) : List Token → Nat
  | [] => 0
  | Token.openTag name _ :: ts => if name = tag then countTag tag ts + 1 else countTag tag ts
  | _ :: ts => countTag tag ts

/-- The code blocks of a token stream: the `code` elements opened directly
after a `pre` tag. -/
def codeBlocks : List Token → Nat
  | [] => 0
  | Token.openTag name _ :: ts =>
    match ts with
    | Token.openTag inner _ :: _ =>
      if name = "pre" && inner = "code" then codeBlocks ts + 1 else codeBlocks ts
    | _ => codeBlocks ts
  | _ :: ts => codeBlocks ts

end Markup

mutual

/-- The token stream a node tree stands for: an element block is its tag around
the tokens of its children, a static node is the tokens of its markup. -/
def Val.tokens : Val → Option (List Markup.Token)
  | Val.elementBlock tag _ children =>
    match Val.tokens children with
    | some ts => some (Markup.Token.openTag tag [] :: ts ++ [Markup.Token.closeTag tag])
    | none => none
  | Val.staticVNode content _ => Markup.tokens content
  | Val.str content => some [Markup.Token.text content]
  | Val.arr items => Val.tokensList items
  | _ => some []

/-- The token streams of a list of nodes, one after the other. -/
def Val.tokensList : List Val → Option (List Markup.Token)
  | [] => some []
  | v :: rest =>
    match Val.tokens v, Val.tokensList rest with
    | some ts, some us => some (ts ++ us)
    | _, _ => none

end

/-- The tokens inside the root of a node tree: its token stream without the
root's own opening and closing tag. -/
def Val.inner (root : Val) : Option (List Markup.Token) :=
  match root with
  | Val.elementBlock _ _ children => Val.tokens children
  | _ => none

/-- The child nodes of an element block. -/
def Val.childNodes : Val → List Val
  | Val.elementBlock _ _ (Val.arr items) => items
  | _ => []

/-- The arguments of one render call other than the cache. -/
structure Args where
  o : Val
  l : Val
  c : Val
  d : Val
  r : Val

/-- The caches a component instance can hold: the cache of a fresh instance,
whose slot 0 is empty, and every cache a render call leaves from such a cache.
Nothing but the render function writes to the cache. -/
inductive Reachable : Cache → Prop where
  | fresh (s : Cache) (hs : s 0 = Val.undefined) : Reachable s
  | step (s : Cache) (o l c d r : Val) (tr : Trace) (hr : Reachable s) :
      Reachable (i o s l c d r tr).cache

/-- A sequence of render calls on one cache, each starting from the cache and
the probe log the previous one left. -/
def renders : List Args → Cache → Trace → Cache × Trace
  | [], s, tr => (s, tr)
  | x :: xs, s, tr =>
    renders xs (i x.o s x.l x.c x.d x.r tr).cache (i x.o s x.l x.c x.d x.r tr).trace

end GeodesicPaths

/-! ## Properties of the page module -/

namespace GeodesicPaths

set_option maxRecDepth 100000

/-! ### Auxiliary facts about one render call -/

theorem staticCalls_append (tr us : Trace) :
    staticCalls (tr ++ us) = staticCalls tr + staticCalls us := by
  simp [staticCalls, List.filter_append]

theorem renderWith_warm (m : String) (o l c d r : Val) (s : Cache) (tr : Trace)
    (hs : (s 0).truthy = true) :
    renderWith m o s l c d r tr
      = Rendered.mk (Val.elementBlock "div" Val.null (s 0)) s
          (tr ++ [Call.openBlock, Call.createElementBlock "div" Val.null (s 0)]) := by
  simp [renderWith, hs, n, e]

theorem renderWith_cold (m : String) (o l c d r : Val) (s : Cache) (tr : Trace)
    (hs : (s 0).truthy = false) :
    renderWith m o s l c d r tr
      = Rendered.mk (Val.elementBlock "div" Val.null (Val.arr [Val.staticVNode m 3]))
          (s.set 0 (Val.arr [Val.staticVNode m 3]))
          (tr ++ [Call.openBlock, Call.createStaticVNode m 3,
            Call.createElementBlock "div" Val.null (Val.arr [Val.staticVNode m 3])]) := by
  simp [renderWith, hs, n, e, p]

theorem truthy_of_empty (s : Cache) (hs : s 0 = Val.undefined) : (s 0).truthy = false := by
  rw [hs]; rfl

theorem renders_warm (xs : List Args) (s : Cache) (tr : Trace) (hs : (s 0).truthy = true) :
    (renders xs s tr).1 = s ∧ staticCalls (renders xs s tr).2 = staticCalls tr := by
  induction xs generalizing tr with
  | nil => exact ⟨rfl, rfl⟩
  | cons x xs ih =>
    have hx := renderWith_warm markup x.o x.l x.c x.d x.r s tr hs
    simp only [renders, i, hx]
    refine ⟨(ih _).1, ?_⟩
    rw [(ih _).2, staticCalls_append]
    rfl

theorem root_content :
    (Val.elementBlock "div" Val.null (Val.arr [Val.staticVNode markup 3])).inner.map
        Markup.headings = some [("h1", some "Geodesic-paths")]
    ∧ (Val.elementBlock "div" Val.null (Val.arr [Val.staticVNode markup 3])).inner.map
        Markup.codeBlocks = some 1
    ∧ (Val.elementBlock "div" Val.null (Val.arr [Val.staticVNode markup 3])).inner.map
        (Markup.countTag "pre") = some 1
    ∧ (Val.elementBlock "div" Val.null (Val.arr [Val.staticVNode markup 3])).inner.map
        (Markup.countTag "code") = some 1
    ∧ (Val.elementBlock "div" Val.null (Val.arr [Val.staticVNode markup 3])).inner.bind
        (fun ts => Markup.topLevel ts []) = some ["h1", "p", "div"]
    ∧ ((Val.elementBlock "div" Val.null (Val.arr [Val.staticVNode markup 3])).inner.bind
        (fun ts => Markup.topLevel ts [])).map List.length = some 3 := by
  decide!

theorem reachable_slot (s : Cache) (hr : Reachable s) :
    s 0 = Val.undefined ∨ s 0 = Val.arr [Val.staticVNode markup 3] := by
  induction hr with
  | fresh s hs => exact Or.inl hs
  | step s o l c d r tr _ ih =>
    right
    cases ht : (s 0).truthy with
    | true =>
      rw [show i o s l c d r tr = _ from renderWith_warm markup o l c d r s tr ht]
      rcases ih with h0 | h0
      · rw [h0] at ht; cases ht
      · exact h0
    | false =>
      rw [show i o s l c d r tr = _ from renderWith_cold markup o l c d r s tr ht]
      rfl

/-! ### Auxiliary facts about reading what was written -/

section ReadBack
open JSON

theorem parseChars_quote (rest : List Char) (pending : Option Nat) (acc : List Char) :
    parseChars ('"' :: rest) StrMode.normal pending acc
      = some (String.mk (flushPending pending acc).reverse, rest) := by
  rfl

theorem parseChars_plainChar (c : Char) (cs : List Char) (pending : Option Nat)
    (acc : List Char) (hc : plainChar c = true) :
    parseChars (c :: cs) StrMode.normal pending acc
      = parseChars cs StrMode.normal none (c :: flushPending pending acc) := by
  simp only [plainChar, Bool.and_eq_true, Bool.not_eq_true', decide_eq_false_iff_not] at hc
  obtain ⟨⟨h1, h2⟩, h3⟩ := hc
  rw [parseChars, if_neg h1, if_neg h2, if_neg h3]

theorem parseChars_plain (cs : List Char) (hcs : cs.all plainChar = true)
    (acc rest : List Char) :
    parseChars (cs ++ '"' :: rest) StrMode.normal none acc
      = some (String.mk (acc.reverse ++ cs), rest) := by
  induction cs generalizing acc with
  | nil => rw [List.nil_append, parseChars_quote]; simp [flushPending]
  | cons c cs ih =>
    simp only [List.all_cons, Bool.and_eq_true] at hcs
    rw [List.cons_append, parseChars_plainChar c _ none acc hcs.1, flushPending, ih hcs.2]
    simp


theorem parseValue_string (fuel : Nat) (s : String) (hs : plain s = true) (rest : List Char) :
    parseValue (fuel + 1) ('"' :: (s.data ++ '"' :: rest)) = some (Val.str s, rest) := by
  rw [parseValue]
  have hstr : parseString (s.data ++ '"' :: rest) [] = some (s, rest) := by
    unfold parseString
    rw [parseChars_plain _ hs]
    rfl
  simp [skipWs, isWs, hstr]


theorem writeMember_append (kv : String × String) (tail : List Char) :
    writeMember kv ++ tail
      = '"' :: (kv.1.data ++ '"' :: ':' :: '"' :: (kv.2.data ++ '"' :: tail)) := by
  simp [writeMember, quote]

theorem parseMembers_member (fuel : Nat) (kv : String × String) (hk : plain kv.1 = true)
    (hv : plain kv.2 = true) (acc : List (String × Val)) (tail : List Char) :
    parseMembers (fuel + 2) (writeMember kv ++ tail) acc
      = (match skipWs tail with
        | [] => none
        | c :: r4 =>
          if c = ',' then parseMembers (fuel + 1) r4 (setField acc kv.1 (Val.str kv.2))
          else if c = '\x7d' then some (Val.obj (setField acc kv.1 (Val.str kv.2)), r4)
          else none) := by
  rw [writeMember_append, parseMembers]
  have hstr : parseString (kv.1.data ++ '"' :: ':' :: '"' :: (kv.2.data ++ '"' :: tail)) []
      = some (kv.1, ':' :: '"' :: (kv.2.data ++ '"' :: tail)) := by
    unfold parseString
    rw [parseChars_plain _ hk]
    rfl
  simp [skipWs, isWs, hstr, parseValue_string fuel kv.2 hv tail]

theorem parseMembers_write (fields : List (String × String)) (hne : fields ≠ [])
    (hplain : ∀ kv ∈ fields, plain kv.1 = true ∧ plain kv.2 = true)
    (fuel : Nat) (hfuel : fields.length < fuel) (acc : List (String × Val))
    (rest : List Char) :
    parseMembers fuel (writeMembers fields ++ rest) acc
      = some (Val.obj (fields.foldl (fun fs kv => setField fs kv.1 (Val.str kv.2)) acc),
          rest) := by
  induction fields generalizing fuel acc with
  | nil => exact absurd rfl hne
  | cons kv fs ih =>
    obtain ⟨f, rfl⟩ : ∃ f, fuel = f + 2 := ⟨fuel - 2, by simp at hfuel; omega⟩
    have hkv := hplain kv (List.mem_cons_self _ _)
    cases fs with
    | nil =>
      simp only [writeMembers, List.append_assoc, List.singleton_append]
      rw [parseMembers_member f kv hkv.1 hkv.2]
      simp [skipWs, isWs]
    | cons kv2 fs2 =>
      have hw : writeMembers (kv :: kv2 :: fs2) ++ rest
          = writeMember kv ++ ',' :: (writeMembers (kv2 :: fs2) ++ rest) := by
        show (writeMember kv ++ ',' :: writeMembers (kv2 :: fs2)) ++ rest = _
        simp
      rw [hw, parseMembers_member f kv hkv.1 hkv.2]
      exact ih (List.cons_ne_nil _ _)
        (fun x hx => hplain x (List.mem_cons_of_mem _ hx)) (f + 1)
        (by simp at hfuel ⊢; omega) (setField acc kv.1 (Val.str kv.2))

theorem writeMembers_length (fields : List (String × String)) :
    fields.length < (writeMembers fields).length := by
  induction fields with
  | nil => simp [writeMembers]
  | cons kv fs ih =>
    cases fs with
    | nil => simp [writeMembers, writeMember, quote]
    | cons kv2 fs2 =>
      have hw : writeMembers (kv :: kv2 :: fs2)
          = writeMember kv ++ ',' :: writeMembers (kv2 :: fs2) := rfl
      rw [hw]
      simp only [List.length_append, List.length_cons] at ih ⊢
      omega

theorem writeMembers_head (kv : String × String) (fs : List (String × String)) :
    ∃ tl, writeMembers (kv :: fs) = '"' :: tl := by
  cases fs with
  | nil => exact ⟨_, by simp [writeMembers, writeMember, quote]; rfl⟩
  | cons kv2 fs2 =>
    have hw : writeMembers (kv :: kv2 :: fs2)
        = writeMember kv ++ ',' :: writeMembers (kv2 :: fs2) := rfl
    rw [hw]
    exact ⟨_, by simp [writeMember, quote]; rfl⟩

theorem parse_writeObject (fields : List (String × String))
    (hplain : ∀ kv ∈ fields, plain kv.1 = true ∧ plain kv.2 = true) :
    JSON.parse (writeObject fields)
      = some (Val.obj (fields.foldl (fun fs kv => setField fs kv.1 (Val.str kv.2)) [])) := by
  cases fields with
  | nil => rfl
  | cons kv fs =>
    obtain ⟨tl, htl⟩ := writeMembers_head kv fs
    have hlen := writeMembers_length (kv :: fs)
    have hm := parseMembers_write (kv :: fs) (List.cons_ne_nil _ _) hplain
      ((writeMembers (kv :: fs)).length + 1) (by omega) [] []
    rw [List.append_nil, htl] at hm
    unfold JSON.parse writeObject
    show (match parseValue (('\x7b' :: writeMembers (kv :: fs)).length + 1)
        ('\x7b' :: writeMembers (kv :: fs)) with
      | none => none
      | some (v, rest) => if (skipWs rest).isEmpty then some v else none) = _
    rw [htl] at hlen ⊢
    rw [parseValue]
    simp only [List.length_cons] at hm ⊢
    simp [skipWs, isWs, hm]

theorem parse_writeString (s : String) (hs : plain s = true) :
    JSON.parse (writeString s) = some (Val.str s) := by
  unfold JSON.parse writeString quote
  show (match parseValue (('"' :: (s.data ++ ['"'])).length + 1) ('"' :: (s.data ++ ['"'])) with
      | none => none
      | some (v, rest) => if (skipWs rest).isEmpty then some v else none) = _
  rw [parseValue_string _ s hs []]
  rfl

theorem hasField_eq_false (fs : List (String × Val)) (k : String)
    (hk : k ∉ fs.map Prod.fst) : hasField fs k = false := by
  induction fs with
  | nil => rfl
  | cons kv rest ih =>
    simp only [List.map_cons, List.mem_cons, not_or] at hk
    simp [hasField, ih hk.2, Ne.symm hk.1]

theorem insertField_append (fs : List (String × Val)) (k : String) (v : Val)
    (hk : indexKey k = none) : insertField fs k v = fs ++ [(k, v)] := by
  induction fs with
  | nil => rfl
  | cons kv rest ih => simp [insertField, hk, ih]

theorem setField_append (fs : List (String × Val)) (k : String) (v : Val)
    (hk : indexKey k = none) (hnew : k ∉ fs.map Prod.fst) :
    setField fs k v = fs ++ [(k, v)] := by
  simp [setField, hasField_eq_false fs k hnew, insertField_append fs k v hk]

theorem foldl_setField (fields : List (String × String)) (acc : List (String × Val))
    (hidx : ∀ kv ∈ fields, indexKey kv.1 = none)
    (hnodup : (acc.map Prod.fst ++ fields.map Prod.fst).Nodup) :
    fields.foldl (fun fs kv => setField fs kv.1 (Val.str kv.2)) acc
      = acc ++ fields.map (fun kv => (kv.1, Val.str kv.2)) := by
  induction fields generalizing acc with
  | nil => simp
  | cons kv fs ih =>
    have hnew : kv.1 ∉ acc.map Prod.fst := by
      intro hmem
      have := (List.nodup_append.mp hnodup).2.2
      exact this hmem (by simp)
    rw [List.foldl_cons, setField_append acc kv.1 _ (hidx kv (List.mem_cons_self _ _)) hnew,
      ih _ (fun x hx => hidx x (List.mem_cons_of_mem _ hx))]
    · simp
    · simpa [List.append_assoc] using hnodup

theorem getField_absent (fs : List (String × Val)) (k : String)
    (hk : k ∉ fs.map Prod.fst) : Val.getField fs k = Val.undefined := by
  induction fs with
  | nil => rfl
  | cons kv rest ih =>
    simp only [List.map_cons, List.mem_cons, not_or] at hk
    simp [Val.getField, ih hk.2, Ne.symm hk.1]

end ReadBack

/-! ### The claims -/

/-- C1: parsing the page-data text embedded in the module succeeds, and the
exported `__pageData` is the object with exactly the seven fields
title = "Geodesic paths", description = "", frontmatter = empty object,
headers = empty array, relativePath = filePath = "tutorials/geodesic_paths.md"
and lastUpdated = null, in that order and with no other field. -/
theorem pageData_fields :
    h = some (Val.obj [("title", Val.str "Geodesic paths"), ("description", Val.str ""),
          ("frontmatter", Val.obj []), ("headers", Val.arr []),
          ("relativePath", Val.str "tutorials/geodesic_paths.md"),
          ("filePath", Val.str "tutorials/geodesic_paths.md"),
          ("lastUpdated", Val.null)])
    ∧ init.map Module.__pageData = h := by
  exact ⟨rfl, rfl⟩

/-- C2: on a cache whose slot 0 is empty, a second render call right after the
first returns the same node tree as the first, the first call makes exactly one
call of the static-markup materializer `p`, and the second makes none, so `p`
is called exactly once across the two. -/
theorem render_idempotent (o l c d r o2 l2 c2 d2 r2 : Val) (s : Cache) (tr : Trace)
    (hs : s 0 = Val.undefined) :
    (i o2 (i o s l c d r tr).cache l2 c2 d2 r2 (i o s l c d r tr).trace).tree
        = (i o s l c d r tr).tree
    ∧ staticCalls (i o s l c d r tr).trace = staticCalls tr + 1
    ∧ staticCalls (i o2 (i o s l c d r tr).cache l2 c2 d2 r2 (i o s l c d r tr).trace).trace
        = staticCalls tr + 1 := by
  have h1 := renderWith_cold markup o l c d r s tr (truthy_of_empty s hs)
  simp only [i, h1]
  have h2 := renderWith_warm markup o2 l2 c2 d2 r2
    (s.set 0 (Val.arr [Val.staticVNode markup 3]))
    (tr ++ [Call.openBlock, Call.createStaticVNode markup 3,
      Call.createElementBlock "div" Val.null (Val.arr [Val.staticVNode markup 3])]) rfl
  rw [h2]
  refine ⟨rfl, ?_, ?_⟩
  · rw [staticCalls_append]; rfl
  · rw [staticCalls_append, staticCalls_append]; rfl

theorem render_idempotent_witness :
    Cache.empty 0 = Val.undefined
    ∧ staticCalls (i Val.null (i Val.null Cache.empty Val.null Val.null Val.null Val.null
        []).cache Val.null Val.null Val.null Val.null (i Val.null Cache.empty Val.null
        Val.null Val.null Val.null []).trace).trace = staticCalls [] + 1 :=
  ⟨rfl, (render_idempotent Val.null Val.null Val.null Val.null Val.null Val.null Val.null
    Val.null Val.null Val.null Cache.empty [] rfl).2.2⟩

/-- C3: the `name` of the component definition `t`, which is also the name of
the exported component, is the string the exported `__pageData` holds under
`relativePath`, namely "tutorials/geodesic_paths.md". -/
theorem component_name_is_relativePath :
    init.map (fun m => m.__pageData.get "relativePath") = some (Val.str t.name)
    ∧ init.map (fun m => m.default.name) = some t.name
    ∧ g.name = t.name
    ∧ t.name = "tutorials/geodesic_paths.md" := by
  exact ⟨rfl, rfl, rfl, rfl⟩

/-- C4: a render call on a cache whose slot 0 is empty leaves slot 0 holding
the one-element list with the materialized static markup, and returns the "div"
element block with null props whose children are that list; the returned tree
is not null.  The calls made are `n()`, then `p` on the markup constant with
count 3, then `e("div", null, children)` with the list just cached. -/
theorem cold_render (o l c d r : Val) (s : Cache) (tr : Trace) (hs : s 0 = Val.undefined) :
    (i o s l c d r tr).cache 0 = Val.arr [Val.staticVNode markup 3]
    ∧ (i o s l c d r tr).cache 0 ≠ Val.undefined
    ∧ (i o s l c d r tr).tree = Val.elementBlock "div" Val.null ((i o s l c d r tr).cache 0)
    ∧ (i o s l c d r tr).tree ≠ Val.null
    ∧ (i o s l c d r tr).trace
        = tr ++ [Call.openBlock, Call.createStaticVNode markup 3,
            Call.createElementBlock "div" Val.null ((i o s l c d r tr).cache 0)] := by
  have h1 := renderWith_cold markup o l c d r s tr (truthy_of_empty s hs)
  unfold i
  rw [h1]
  refine ⟨rfl, ?_, rfl, ?_, rfl⟩
  · intro hc; cases hc
  · intro hc; cases hc

theorem cold_render_witness :
    Cache.empty 0 = Val.undefined
    ∧ (i Val.null Cache.empty Val.null Val.null Val.null Val.null []).cache 0
        = Val.arr [Val.staticVNode markup 3] :=
  ⟨rfl, (cold_render Val.null Val.null Val.null Val.null Val.null Cache.empty [] rfl).1⟩

/-- C5: the materialized state is absorbing.  For every cache an instance can
hold (a fresh cache with slot 0 empty, or what render calls leave from one) in
which slot 0 is populated, a render call leaves slot 0 populated with the same
value, indeed leaves the whole cache as it was, and does not call the
materializer; the same holds after any sequence of render calls, so no sequence
returns the instance to uninitialized.  And from every cache whose slot 0 is
empty (or holds another falsy value) the first render call makes the one call
of the materializer there ever is: after it and any sequence of further calls
slot 0 is populated and the materializer has been called exactly once; the
cache the first render call leaves from an empty slot 0 is one an instance can
hold, with slot 0 populated, so the first part applies to it. -/
theorem materialized_absorbing (s : Cache) (hr : Reachable s) (hp : s 0 ≠ Val.undefined)
    (o l c d r : Val) (tr : Trace) (xs : List Args) :
    (i o s l c d r tr).cache 0 = s 0
    ∧ (i o s l c d r tr).cache 0 ≠ Val.undefined
    ∧ (i o s l c d r tr).cache = s
    ∧ staticCalls (i o s l c d r tr).trace = staticCalls tr
    ∧ (renders xs s tr).1 0 = s 0
    ∧ (renders xs s tr).1 0 ≠ Val.undefined
    ∧ staticCalls (renders xs s tr).2 = staticCalls tr
    ∧ (∀ (s0 : Cache) (tr0 : Trace), s0 0 = Val.undefined →
        Reachable (i o s0 l c d r tr0).cache
        ∧ (i o s0 l c d r tr0).cache 0 ≠ Val.undefined)
    ∧ (∀ (s0 : Cache) (tr0 : Trace), (s0 0).truthy = false →
        staticCalls (i o s0 l c d r tr0).trace = staticCalls tr0 + 1
        ∧ (renders xs (i o s0 l c d r tr0).cache (i o s0 l c d r tr0).trace).1 0
            = Val.arr [Val.staticVNode markup 3]
        ∧ (renders xs (i o s0 l c d r tr0).cache (i o s0 l c d r tr0).trace).1 0
            ≠ Val.undefined
        ∧ staticCalls (renders xs (i o s0 l c d r tr0).cache (i o s0 l c d r tr0).trace).2
            = staticCalls tr0 + 1) := by
  have hs : s 0 = Val.arr [Val.staticVNode markup 3] := by
    rcases reachable_slot s hr with h0 | h0
    · exact absurd h0 hp
    · exact h0
  have ht : (s 0).truthy = true := by rw [hs]; rfl
  have h1 := renderWith_warm markup o l c d r s tr ht
  have h2 := renders_warm xs s tr ht
  refine ⟨?_, ?_, ?_, ?_, ?_, ?_, h2.2, ?_, ?_⟩
  · unfold i; rw [h1]
  · unfold i; rw [h1]; exact hp
  · unfold i; rw [h1]
  · unfold i; rw [h1, staticCalls_append]; rfl
  · rw [h2.1]
  · rw [h2.1]; exact hp
  · intro s0 tr0 h0
    refine ⟨Reachable.step s0 o l c d r tr0 (Reachable.fresh s0 h0), ?_⟩
    unfold i
    rw [renderWith_cold markup o l c d r s0 tr0 (truthy_of_empty s0 h0)]
    intro hc; cases hc
  · intro s0 tr0 h0
    have h3 := renderWith_cold markup o l c d r s0 tr0 h0
    have h4 := renders_warm xs (s0.set 0 (Val.arr [Val.staticVNode markup 3]))
      (tr0 ++ [Call.openBlock, Call.createStaticVNode markup 3,
        Call.createElementBlock "div" Val.null (Val.arr [Val.staticVNode markup 3])]) rfl
    refine ⟨?_, ?_, ?_, ?_⟩
    · unfold i; rw [h3, staticCalls_append]; rfl
    · unfold i; rw [h3, h4.1]; rfl
    · unfold i; rw [h3, h4.1]; intro hc; cases hc
    · unfold i; rw [h3, h4.2, staticCalls_append]; rfl

theorem materialized_absorbing_witness :
    (i Val.null (i Val.null Cache.empty Val.null Val.null Val.null Val.null []).cache
        Val.null Val.null Val.null Val.null []).cache 0
      = (i Val.null Cache.empty Val.null Val.null Val.null Val.null []).cache 0 :=
  (materialized_absorbing (i Val.null Cache.empty Val.null Val.null Val.null Val.null []).cache
    (Reachable.step Cache.empty Val.null Val.null Val.null Val.null Val.null []
      (Reachable.fresh Cache.empty rfl))
    (fun hc => Val.noConfusion hc)
    Val.null Val.null Val.null Val.null Val.null [] []).1

/-- C6, as stated, fails: with the empty markup in place of the markup
constant, a render of the empty cache returns the "div" element block, which is
not an empty list, and the block's child list holds one node, the static node
of the empty payload. -/
theorem empty_markup_not_empty_list :
    (renderWith "" Val.null Cache.empty Val.null Val.null Val.null Val.null []).tree
        ≠ Val.arr []
    ∧ (renderWith "" Val.null Cache.empty Val.null Val.null Val.null Val.null []).tree.childNodes
        = [Val.staticVNode "" 3]
    ∧ (renderWith "" Val.null Cache.empty Val.null Val.null Val.null Val.null
        []).tree.childNodes.length = 1 := by
  have h1 := renderWith_cold "" Val.null Val.null Val.null Val.null Val.null Cache.empty [] rfl
  rw [h1]
  refine ⟨?_, rfl, rfl⟩
  intro hc; cases hc

/-- C6, amended: with the empty markup in place of the markup constant, a
render call on a cache whose slot 0 is empty returns a result (the render
function is total): the "div" element block with null props whose children are
the one-element list holding the static node of the empty payload; that node
stands for no markup at all, so the root has no content. -/
theorem empty_markup_render (o l c d r : Val) (s : Cache) (tr : Trace)
    (hs : s 0 = Val.undefined) :
    (renderWith "" o s l c d r tr).tree
        = Val.elementBlock "div" Val.null (Val.arr [Val.staticVNode "" 3])
    ∧ (renderWith "" o s l c d r tr).tree.inner = some [] := by
  have h1 := renderWith_cold "" o l c d r s tr (truthy_of_empty s hs)
  rw [h1]
  exact ⟨rfl, rfl⟩

theorem empty_markup_render_witness :
    Cache.empty 0 = Val.undefined
    ∧ (renderWith "" Val.null Cache.empty Val.null Val.null Val.null Val.null []).tree.inner
        = some [] :=
  ⟨rfl, (empty_markup_render Val.null Val.null Val.null Val.null Val.null Cache.empty []
    rfl).2⟩

/-- C7, as stated, fails: a page-data text without the `relativePath` key, and
one that is not an object, both load; the module initializes and exports them
as they are. -/
theorem malformed_payload_loads :
    (initWith "\x7b\"title\":\"Geodesic paths\"\x7d").map Module.__pageData
        = some (Val.obj [("title", Val.str "Geodesic paths")])
    ∧ (initWith "\x7b\"title\":\"Geodesic paths\"\x7d").map
        (fun m => m.__pageData.get "relativePath") = some Val.undefined
    ∧ (initWith "null").map Module.__pageData = some Val.null := by
  exact ⟨rfl, rfl, rfl⟩

/-- C7, amended: module initialization does not validate the page data.  Every
text that is a JSON object of string-valued members (distinct keys, none an
array index, strings written without escapes) loads and is exported as parsed,
also when `relativePath` is not among its keys, in which case reading
`relativePath` from the export gives `undefined`; a text that is a JSON string,
or `null`, loads too although it is not an object.  Initialization fails exactly
when `JSON.parse` throws, as on the text of a lone opening brace; when it
succeeds the export is the parsed value and the component is `g`, whose name is
the literal "tutorials/geodesic_paths.md" whatever the text, so no component
without an identifier is produced. -/
theorem payload_not_validated (fields : List (String × String))
    (hplain : ∀ kv ∈ fields, JSON.plain kv.1 = true ∧ JSON.plain kv.2 = true)
    (hidx : ∀ kv ∈ fields, JSON.indexKey kv.1 = none)
    (hnodup : (fields.map Prod.fst).Nodup)
    (hmissing : "relativePath" ∉ fields.map Prod.fst) :
    initWith (JSON.writeObject fields)
        = some (Module.mk (Val.obj (fields.map (fun kv => (kv.1, Val.str kv.2)))) g)
    ∧ (Val.obj (fields.map (fun kv => (kv.1, Val.str kv.2)))).get "relativePath"
        = Val.undefined
    ∧ (∀ s : String, JSON.plain s = true →
        initWith (JSON.writeString s) = some (Module.mk (Val.str s) g))
    ∧ initWith "null" = some (Module.mk Val.null g)
    ∧ initWith "\x7b" = none
    ∧ (∀ text : String, initWith text = none ↔ JSON.parse text = none)
    ∧ (∀ (text : String) (m : Module), initWith text = some m →
        JSON.parse text = some m.__pageData ∧ m.default = g)
    ∧ g.name = "tutorials/geodesic_paths.md" := by
  have hobj : JSON.parse (JSON.writeObject fields)
      = some (Val.obj (fields.map (fun kv => (kv.1, Val.str kv.2)))) := by
    rw [parse_writeObject fields hplain, foldl_setField fields [] hidx (by simpa using hnodup)]
    rfl
  refine ⟨?_, ?_, ?_, rfl, rfl, ?_, ?_, rfl⟩
  · unfold initWith; rw [hobj]
  · apply getField_absent
    simpa [List.map_map, Function.comp] using hmissing
  · intro s hs
    unfold initWith; rw [parse_writeString s hs]
  · intro text
    unfold initWith
    cases JSON.parse text <;> simp
  · intro text m hm
    unfold initWith at hm
    cases hp : JSON.parse text with
    | none => rw [hp] at hm; cases hm
    | some v =>
      rw [hp] at hm
      cases hm
      exact ⟨rfl, rfl⟩

theorem payload_not_validated_witness :
    initWith (JSON.writeObject [("title", "Geodesic paths"), ("description", "")])
      = some (Module.mk
          (Val.obj [("title", Val.str "Geodesic paths"), ("description", Val.str "")]) g) :=
  (payload_not_validated [("title", "Geodesic paths"), ("description", "")]
    (by decide) (by decide) (by decide) (by decide)).1

/-- C8: a render call on a cache whose slot 0 is empty returns the "div" block
whose single child is the static node of the markup constant with declared
node count 3; inside the root there is exactly one heading element, the `h1`
with id "Geodesic-paths", and exactly one code block (one `pre` element, one
`code` element, the `code` directly inside the `pre`); and the markup has
exactly three top-level nodes, the elements `h1`, `p` and `div`, as many as the
declared count.  Mounting is the framework calling the render entry of the
exported component `g` with the instance's cache; that entry is `i`. -/
theorem cold_mount_content (o l c d r : Val) (s : Cache) (tr : Trace)
    (hs : s 0 = Val.undefined) :
    init.map Module.default = some g
    ∧ mount g o s l c d r tr = some (i o s l c d r tr)
    ∧ (mount g o s l c d r tr).map Rendered.tree
        = some (Val.elementBlock "div" Val.null (Val.arr [Val.staticVNode markup 3]))
    ∧ ((mount g o s l c d r tr).bind (fun out => out.tree.inner)).map Markup.headings
        = some [("h1", some "Geodesic-paths")]
    ∧ ((mount g o s l c d r tr).bind (fun out => out.tree.inner)).map Markup.codeBlocks
        = some 1
    ∧ (i o s l c d r tr).tree
        = Val.elementBlock "div" Val.null (Val.arr [Val.staticVNode markup 3])
    ∧ (i o s l c d r tr).tree.inner.map Markup.headings
        = some [("h1", some "Geodesic-paths")]
    ∧ (i o s l c d r tr).tree.inner.map Markup.codeBlocks = some 1
    ∧ (i o s l c d r tr).tree.inner.map (Markup.countTag "pre") = some 1
    ∧ (i o s l c d r tr).tree.inner.map (Markup.countTag "code") = some 1
    ∧ (i o s l c d r tr).tree.inner.bind (fun ts => Markup.topLevel ts [])
        = some ["h1", "p", "div"]
    ∧ ((i o s l c d r tr).tree.inner.bind (fun ts => Markup.topLevel ts [])).map List.length
        = some 3 := by
  have h1 := renderWith_cold markup o l c d r s tr (truthy_of_empty s hs)
  have hm : mount g o s l c d r tr = some (i o s l c d r tr) := rfl
  rw [hm]
  unfold i
  rw [h1]
  exact ⟨rfl, rfl, rfl, root_content.1, root_content.2.1, rfl, root_content⟩

theorem cold_mount_content_witness :
    Cache.empty 0 = Val.undefined
    ∧ ((mount g Val.null Cache.empty Val.null Val.null Val.null Val.null []).bind
        (fun out => out.tree.inner)).map Markup.headings
        = some [("h1", some "Geodesic-paths")] :=
  ⟨rfl, (cold_mount_content Val.null Val.null Val.null Val.null Val.null Cache.empty []
    rfl).2.2.2.1⟩

/-- C9, as stated, fails: a slot mapping can specify the empty string at
index 0; the root's children are then not that value but the materialized
original markup, the materializer is called, and slot 0 is overwritten. -/
theorem specified_slot_ignored :
    (Cache.empty.set 0 (Val.str "")) 0 = Val.str ""
    ∧ (i Val.null (Cache.empty.set 0 (Val.str "")) Val.null Val.null Val.null Val.null []).tree
        = Val.elementBlock "div" Val.null (Val.arr [Val.staticVNode markup 3])
    ∧ (i Val.null (Cache.empty.set 0 (Val.str "")) Val.null Val.null Val.null Val.null []).tree
        ≠ Val.elementBlock "div" Val.null (Val.str "")
    ∧ staticCalls
        (i Val.null (Cache.empty.set 0 (Val.str "")) Val.null Val.null Val.null Val.null
          []).trace = 1 := by
  have h1 := renderWith_cold markup Val.null Val.null Val.null Val.null Val.null
    (Cache.empty.set 0 (Val.str "")) [] rfl
  unfold i
  rw [h1]
  refine ⟨rfl, rfl, ?_, rfl⟩
  intro hc; cases hc

/-- C9, amended: for every slot mapping passed as the cache, if the value at
index 0 is truthy the root's children are exactly that value, the markup is not
materialized and the mapping is left as it is; if index 0 is unspecified or
holds a falsy value the root's children are the list with the materialized
original markup, which is also written to index 0; in both cases the values at
every other index are unchanged, and changing them changes neither the returned
tree nor the calls made, whatever the number of slots. -/
theorem slot_zero_override (o l c d r : Val) (s s2 : Cache) (tr : Trace) :
    (i o s l c d r tr).tree
        = Val.elementBlock "div" Val.null
            (if (s 0).truthy then s 0 else Val.arr [Val.staticVNode markup 3])
    ∧ staticCalls (i o s l c d r tr).trace
        = staticCalls tr + (if (s 0).truthy then 0 else 1)
    ∧ (i o s l c d r tr).cache 0
        = (if (s 0).truthy then s 0 else Val.arr [Val.staticVNode markup 3])
    ∧ (∀ k : Nat, (i o s l c d r tr).cache (k + 1) = s (k + 1))
    ∧ (i o (fun k => if k = 0 then s 0 else s2 k) l c d r tr).tree = (i o s l c d r tr).tree
    ∧ (i o (fun k => if k = 0 then s 0 else s2 k) l c d r tr).trace
        = (i o s l c d r tr).trace
    ∧ (∀ k : Nat,
        (i o (fun k => if k = 0 then s 0 else s2 k) l c d r tr).cache (k + 1) = s2 (k + 1)) := by
  cases hs : (s 0).truthy with
  | true =>
    have h1 := renderWith_warm markup o l c d r s tr hs
    have h2 := renderWith_warm markup o l c d r (fun k => if k = 0 then s 0 else s2 k) tr hs
    refine ⟨?_, ?_, ?_, ?_, ?_, ?_, ?_⟩ <;>
      simp [i, h1, h2, hs, staticCalls, Call.isStatic, Cache.set]
  | false =>
    have h1 := renderWith_cold markup o l c d r s tr hs
    have h2 := renderWith_cold markup o l c d r (fun k => if k = 0 then s 0 else s2 k) tr hs
    refine ⟨?_, ?_, ?_, ?_, ?_, ?_, ?_⟩ <;>
      simp [i, h1, h2, hs, staticCalls, Call.isStatic, Cache.set]

/-- C10: the outcome of a render call (returned tree, resulting cache, calls
made) depends on the cache alone: two calls on the same cache give equal
outcomes whatever is passed for the other five parameters. -/
theorem render_ignores_other_arguments (o l c d r o2 l2 c2 d2 r2 : Val) (s : Cache)
    (tr : Trace) :
    i o s l c d r tr = i o2 s l2 c2 d2 r2 tr := by
  rfl

end GeodesicPaths
